import Mathlib

/- Verification development for the GSTENG-TARS repository.

   Part 1 models the Approval and Audit Workflow Engine described in the
   specification (permission model, risk classification, auto-approval
   rule engine, audit log, request state machine).  The repository ships
   only documentation for this subsystem, so the definitions below are
   modelled from the specification text.

   Part 2 is a shallow embedding of the concrete web server code in
   web-interface/server.cjs (static file serving with its directory
   containment check, and the personality/status/models API handlers). -/

/-! ## Part 1: data model of the approval workflow engine -/

/-- Modelled from the spec: ordered permission levels
Read < Write < Execute < Admin < Root (section 3). -/
inductive PermissionLevel
  | Read
  | Write
  | Execute
  | Admin
  | Root
deriving DecidableEq, Repr

/-- Numeric rank of a permission level, realising the total order. -/
def PermissionLevel.toNat : PermissionLevel → Nat
  | .Read => 0
  | .Write => 1
  | .Execute => 2
  | .Admin => 3
  | .Root => 4

/-- Modelled from the spec: permission_satisfies(granted, required) is
granted at least required on the total order (section 4.1). -/
def permission_satisfies (granted required : PermissionLevel) : Bool :=
  decide (required.toNat ≤ granted.toNat)

/-- Modelled from the spec: ordered risk levels Low < Medium < High < Critical
(section 3). -/
inductive RiskLevel
  | Low
  | Medium
  | High
  | Critical
deriving DecidableEq, Repr

/-- Numeric rank of a risk level. -/
def RiskLevel.toNat : RiskLevel → Nat
  | .Low => 0
  | .Medium => 1
  | .High => 2
  | .Critical => 3

/-- Boolean order on risk levels. -/
def riskLE (a b : RiskLevel) : Bool :=
  decide (a.toNat ≤ b.toNat)

/-- Modelled from the spec: classify_risk(operation_kind, parameters) uses a
configurable lookup table keyed by operation kind with a default fallback of
Medium for unknown operation kinds (section 4.1).  The parameters argument is
part of the documented signature; the table itself is keyed by operation
kind only. -/
def classify_risk (table : List (String × RiskLevel)) (operation_kind : String)
    (parameters : List (String × String)) : RiskLevel :=
  match List.lookup operation_kind table with
  | some r => r
  | none => RiskLevel.Medium

/-- Modelled from the spec: request status values (section 3). -/
inductive Status
  | Pending
  | AutoApproved
  | Approved
  | Denied
  | Expired
  | Executed
  | Failed
deriving DecidableEq, Repr

/-- Terminal statuses of the lifecycle (section 3). -/
def terminalStatus : Status → Bool
  | .Denied => true
  | .Expired => true
  | .Executed => true
  | .Failed => true
  | _ => false

/-- Statuses a request can only hold after the Executor has been invoked. -/
def touchedExec : Status → Bool
  | .Executed => true
  | .Failed => true
  | _ => false

/-- Modelled from the spec: a human or rule decision value (section 3). -/
inductive Decision
  | Approve
  | Deny
deriving DecidableEq, Repr

/-- Modelled from the spec: the Decision record attached to a request once
its status leaves Pending (section 3). -/
structure DecisionInfo where
  decided_by : String
  decision : Decision
  reason : String
  conditions : List String
  decided_at : Nat
deriving DecidableEq, Repr

/-- Modelled from the spec: an OperationRequest (section 3).  Timestamps are
abstract naturals. -/
structure OperationRequest where
  id : Nat
  operation_kind : String
  parameters : List (String × String)
  required_permission : PermissionLevel
  risk_level : RiskLevel
  requester : String
  created_at : Nat
  expires_at : Nat
  status : Status
  decision : Option DecisionInfo
deriving DecidableEq, Repr

/-- Modelled from the spec: the closed set of parameter constraint kinds a
rule may use: equality, numeric range, set membership (sections 4.2 and 9). -/
inductive ParamConstraint
  | eqc (key value : String)
  | rangec (key : String) (lo hi : Nat)
  | memc (key : String) (values : List String)
deriving DecidableEq, Repr

/-- Whether one parameter constraint is satisfied by a parameter list. -/
def constraintSat (parameters : List (String × String)) : ParamConstraint → Bool
  | .eqc k v =>
      match List.lookup k parameters with
      | some w => w == v
      | none => false
  | .rangec k lo hi =>
      match List.lookup k parameters with
      | some w =>
          match w.toNat? with
          | some n => decide (lo ≤ n) && decide (n ≤ hi)
          | none => false
      | none => false
  | .memc k vs =>
      match List.lookup k parameters with
      | some w => vs.contains w
      | none => false

/-- Modelled from the spec: an AutoApprovalRule with id, match predicate
(operation kind target where "*" is the wildcard, maximum risk, parameter
constraints), action (always Approve per the spec) and enabled flag
(sections 3 and 4.2).  Rules are kept in declaration order, which the spec
allows as the deterministic priority order. -/
structure AutoApprovalRule where
  id : String
  operation_kind : String
  max_risk : RiskLevel
  param_constraints : List ParamConstraint
  action : Decision
  enabled : Bool
deriving DecidableEq, Repr

/-- Whether a rule matches a request: operation kind equal to the target or
the wildcard target, risk at most the maximum, and every parameter
constraint satisfied (section 4.2). -/
def ruleMatches (rule : AutoApprovalRule) (req : OperationRequest) : Bool :=
  (rule.operation_kind == "*" || rule.operation_kind == req.operation_kind)
    && riskLE req.risk_level rule.max_risk
    && rule.param_constraints.all (constraintSat req.parameters)

/-- Modelled from the spec: the Rule Engine contract evaluate(request, rules):
iterate the enabled rules in order and return the first match, or none
(section 4.2). -/
def evaluate (req : OperationRequest) (rules : List AutoApprovalRule) :
    Option AutoApprovalRule :=
  rules.find? (fun rule => rule.enabled && ruleMatches rule req)

/-- Modelled from the spec: lifecycle events recorded in the audit log, one
per state transition (sections 3 and 4.3). -/
inductive AuditEvent
  | created
  | awaitingDecision
  | autoApproved (rule_id : String)
  | approved (decided_by : String)
  | denied (decided_by : String)
  | expired
  | executionStarted
  | executed (summary : String)
  | executionFailed (error_detail : String)
deriving DecidableEq, Repr

/-- Modelled from the spec: one immutable audit record, keyed by request id
(section 3). -/
structure AuditRecord where
  request_id : Nat
  event : AuditEvent
  timestamp : Nat
deriving DecidableEq, Repr

/-- One invocation of the injected Executor capability, with the operation
kind and parameters it was given (section 4.4 step 5). -/
structure ExecCall where
  rid : Nat
  operation_kind : String
  parameters : List (String × String)
deriving DecidableEq, Repr

/-- Modelled from the spec: error taxonomy of the engine (section 7). -/
inductive ErrorKind
  | UnknownOperation
  | InvalidState
  | Expired
  | StorageUnavailable
  | ExecutorError (detail : String)
deriving DecidableEq, Repr

/-- Whether an engine call result is a success. -/
def isOkResult : Except ErrorKind OperationRequest → Bool
  | .ok _ => true
  | .error _ => false

/-- Modelled from the spec: per-instance engine configuration, replacing any
ambient global state (sections 4.1, 4.2, 9): risk classification table,
permission table, per-risk TTL table and the auto-approval rules. -/
structure EngineConfig where
  riskTable : List (String × RiskLevel)
  permTable : List (String × PermissionLevel)
  ttl : RiskLevel → Nat
  rules : List AutoApprovalRule

/-- Modelled from the spec: persisted engine state: the request table keyed
by id, the append-only audit log, the record of Executor invocations, and
the id generator (section 6). -/
structure EngineState where
  requests : Nat → Option OperationRequest
  auditLog : List AuditRecord
  execLog : List ExecCall
  nextId : Nat

/-- The empty engine state. -/
def initState : EngineState :=
  { requests := fun _ => none, auditLog := [], execLog := [], nextId := 0 }

/-- Status of the request stored under an id, when present. -/
def reqStatus (s : EngineState) (i : Nat) : Option Status :=
  (s.requests i).map (fun r => r.status)

/-- Number of Executor invocations recorded for a request id. -/
def execCount (s : EngineState) (i : Nat) : Nat :=
  (s.execLog.filter (fun e => e.rid == i)).length

/-- Store an updated request under an explicit id and append audit records. -/
def putReq (s : EngineState) (k : Nat) (r : OperationRequest)
    (recs : List AuditRecord) : EngineState :=
  { s with requests := fun i => if i = k then some r else s.requests i,
           auditLog := s.auditLog ++ recs }

/-- Append audit records only. -/
def appendAudit (s : EngineState) (recs : List AuditRecord) : EngineState :=
  { s with auditLog := s.auditLog ++ recs }

/-- Record one Executor invocation. -/
def pushExec (s : EngineState) (e : ExecCall) : EngineState :=
  { s with execLog := s.execLog ++ [e] }

/-- Insert a fresh request under the next id and append audit records. -/
def addReq (s : EngineState) (r : OperationRequest)
    (recs : List AuditRecord) : EngineState :=
  { s with requests := fun i => if i = s.nextId then some r else s.requests i,
           auditLog := s.auditLog ++ recs,
           nextId := s.nextId + 1 }

/-- Modelled from the spec: the request built at intake: id assigned,
required permission and risk computed from the configuration tables (the
spec fixes no permission fallback; Admin, the cautious choice, is used for
unknown kinds), expiry from the per-risk TTL, status Pending (section 4.4
step 1). -/
def mkRequest (cfg : EngineConfig) (i now : Nat) (operation_kind : String)
    (parameters : List (String × String)) (requester : String) :
    OperationRequest :=
  let risk := classify_risk cfg.riskTable operation_kind parameters
  { id := i
    operation_kind := operation_kind
    parameters := parameters
    required_permission :=
      (List.lookup operation_kind cfg.permTable).getD PermissionLevel.Admin
    risk_level := risk
    requester := requester
    created_at := now
    expires_at := now + cfg.ttl risk
    status := Status.Pending
    decision := none }

/-- A request with only its status replaced. -/
def withStatus (r : OperationRequest) (st : Status) : OperationRequest :=
  { r with status := st }

/-- A request moved to a new status with a decision record attached. -/
def withDecision (r : OperationRequest) (st : Status) (di : DecisionInfo) :
    OperationRequest :=
  { r with status := st, decision := some di }

/-- A freshly intaken request marked auto-approved by a rule
(section 4.4 step 2). -/
def withAutoApproval (r : OperationRequest) (rule_id : String) (now : Nat) :
    OperationRequest :=
  withDecision r Status.AutoApproved
    ⟨"auto-rule:" ++ rule_id, Decision.Approve, "matched auto-approval rule",
     [], now⟩

@[simp] lemma withStatus_status (r : OperationRequest) (st : Status) :
    (withStatus r st).status = st := rfl

@[simp] lemma withDecision_status (r : OperationRequest) (st : Status)
    (di : DecisionInfo) : (withDecision r st di).status = st := rfl

@[simp] lemma withAutoApproval_status (r : OperationRequest)
    (rule_id : String) (now : Nat) :
    (withAutoApproval r rule_id now).status = Status.AutoApproved := rfl

/-- Modelled from the spec: submit = intake plus synchronous rule
evaluation (section 4.4 steps 1 and 2).  The auditOk flag is the
environment: whether the audit storage accepts the append.  If the audit
append fails the creation is aborted and nothing is recorded (section 4.3:
the engine must not proceed without recording). -/
def submitFn (cfg : EngineConfig) (s : EngineState) (now : Nat)
    (operation_kind : String) (parameters : List (String × String))
    (requester : String) (auditOk : Bool) :
    Except ErrorKind OperationRequest × EngineState :=
  if auditOk then
    match evaluate (mkRequest cfg s.nextId now operation_kind parameters
        requester) cfg.rules with
    | some rule =>
        (Except.ok (withAutoApproval
           (mkRequest cfg s.nextId now operation_kind parameters requester)
           rule.id now),
         addReq s (withAutoApproval
           (mkRequest cfg s.nextId now operation_kind parameters requester)
           rule.id now)
           [⟨s.nextId, AuditEvent.created, now⟩,
            ⟨s.nextId, AuditEvent.autoApproved rule.id, now⟩])
    | none =>
        (Except.ok (mkRequest cfg s.nextId now operation_kind parameters
           requester),
         addReq s (mkRequest cfg s.nextId now operation_kind parameters
           requester)
           [⟨s.nextId, AuditEvent.created, now⟩,
            ⟨s.nextId, AuditEvent.awaitingDecision, now⟩])
  else (Except.error ErrorKind.StorageUnavailable, s)

/-- Modelled from the spec: decide(request_id, decision, decided_by, reason,
conditions), legal only while the request is Pending and before expiry;
expiry is re-validated on this touch; a failing audit append aborts the
triggering transition and moves the request to Failed (sections 4.4 steps
3 and 4, section 7). -/
def decideFn (s : EngineState) (now rid : Nat) (d : Decision)
    (decided_by reason : String) (conditions : List String) (auditOk : Bool) :
    Except ErrorKind OperationRequest × EngineState :=
  match s.requests rid with
  | none => (Except.error ErrorKind.InvalidState, s)
  | some r =>
    if r.status = Status.Pending then
      if r.expires_at ≤ now then
        if auditOk then
          (Except.error ErrorKind.Expired,
           putReq s rid (withStatus r Status.Expired)
             [⟨rid, AuditEvent.expired, now⟩])
        else
          (Except.error ErrorKind.StorageUnavailable,
           putReq s rid (withStatus r Status.Failed) [])
      else if auditOk then
        match d with
        | Decision.Approve =>
            (Except.ok (withDecision r Status.Approved
               ⟨decided_by, Decision.Approve, reason, conditions, now⟩),
             putReq s rid (withDecision r Status.Approved
               ⟨decided_by, Decision.Approve, reason, conditions, now⟩)
               [⟨rid, AuditEvent.approved decided_by, now⟩])
        | Decision.Deny =>
            (Except.ok (withDecision r Status.Denied
               ⟨decided_by, Decision.Deny, reason, conditions, now⟩),
             putReq s rid (withDecision r Status.Denied
               ⟨decided_by, Decision.Deny, reason, conditions, now⟩)
               [⟨rid, AuditEvent.denied decided_by, now⟩])
      else
        (Except.error ErrorKind.StorageUnavailable,
         putReq s rid (withStatus r Status.Failed) [])
    else (Except.error ErrorKind.InvalidState, s)

/-- Modelled from the spec: the execution step, triggered once a request is
AutoApproved or Approved (section 4.4 step 5).  The engine first persists
an execution-started record (write-ahead), then invokes the Executor
exactly once; the outcome of the injected Executor is the environment
argument execResult.  A request in any other status, in particular one
already Executed, causes no Executor call.  A failing audit append aborts
the transition and moves the request to Failed. -/
def execFn (s : EngineState) (now rid : Nat)
    (execResult : Except String String) (auditOk1 auditOk2 : Bool) :
    Except ErrorKind OperationRequest × EngineState :=
  match s.requests rid with
  | none => (Except.error ErrorKind.InvalidState, s)
  | some r =>
    if r.status = Status.AutoApproved ∨ r.status = Status.Approved then
      if auditOk1 then
        match execResult with
        | Except.ok summary =>
            if auditOk2 then
              (Except.ok (withStatus r Status.Executed),
               putReq (pushExec
                   (appendAudit s [⟨rid, AuditEvent.executionStarted, now⟩])
                   ⟨rid, r.operation_kind, r.parameters⟩)
                 rid (withStatus r Status.Executed)
                 [⟨rid, AuditEvent.executed summary, now⟩])
            else
              (Except.error ErrorKind.StorageUnavailable,
               putReq (pushExec
                   (appendAudit s [⟨rid, AuditEvent.executionStarted, now⟩])
                   ⟨rid, r.operation_kind, r.parameters⟩)
                 rid (withStatus r Status.Failed) [])
        | Except.error emsg =>
            if auditOk2 then
              (Except.error (ErrorKind.ExecutorError emsg),
               putReq (pushExec
                   (appendAudit s [⟨rid, AuditEvent.executionStarted, now⟩])
                   ⟨rid, r.operation_kind, r.parameters⟩)
                 rid (withStatus r Status.Failed)
                 [⟨rid, AuditEvent.executionFailed emsg, now⟩])
            else
              (Except.error ErrorKind.StorageUnavailable,
               putReq (pushExec
                   (appendAudit s [⟨rid, AuditEvent.executionStarted, now⟩])
                   ⟨rid, r.operation_kind, r.parameters⟩)
                 rid (withStatus r Status.Failed) [])
      else
        (Except.error ErrorKind.StorageUnavailable,
         putReq s rid (withStatus r Status.Failed) [])
    else (Except.error ErrorKind.InvalidState, s)

/-- Modelled from the spec: the lazy expiry sweep for one request: a Pending
request past its expiry moves to Expired (section 4.4 step 4); a failing
audit append moves it to Failed instead (section 4.3). -/
def sweepFn (s : EngineState) (now rid : Nat) (auditOk : Bool) : EngineState :=
  match s.requests rid with
  | none => s
  | some r =>
    if r.status = Status.Pending ∧ r.expires_at ≤ now then
      if auditOk then
        putReq s rid (withStatus r Status.Expired)
          [⟨rid, AuditEvent.expired, now⟩]
      else
        putReq s rid (withStatus r Status.Failed) []
    else s

/-- One engine step: any caller-visible operation, with the environment
choices (times, decision data, Executor outcome, audit storage
availability) as constructor arguments. -/
inductive Step (cfg : EngineConfig) : EngineState → EngineState → Prop
  | submit (s : EngineState) (now : Nat) (operation_kind : String)
      (parameters : List (String × String)) (requester : String)
      (auditOk : Bool) :
      Step cfg s (submitFn cfg s now operation_kind parameters requester auditOk).2
  | decideStep (s : EngineState) (now rid : Nat) (d : Decision)
      (decided_by reason : String) (conditions : List String) (auditOk : Bool) :
      Step cfg s (decideFn s now rid d decided_by reason conditions auditOk).2
  | sweep (s : EngineState) (now rid : Nat) (auditOk : Bool) :
      Step cfg s (sweepFn s now rid auditOk)
  | execStep (s : EngineState) (now rid : Nat)
      (execResult : Except String String) (auditOk1 auditOk2 : Bool) :
      Step cfg s (execFn s now rid execResult auditOk1 auditOk2).2

/-- Engine states reachable from the empty state by engine steps. -/
inductive Reachable (cfg : EngineConfig) : EngineState → Prop
  | init : Reachable cfg initState
  | step {s t : EngineState} : Reachable cfg s → Step cfg s t → Reachable cfg t

/-! ## Part 2: the web interface server (web-interface/server.cjs) -/

/-- Split a character list into path segments at slash characters. -/
def splitSegsAux : List Char → List Char → List (List Char)
  | [], acc => [acc.reverse]
  | c :: rest, acc =>
      if c = '/' then acc.reverse :: splitSegsAux rest []
      else splitSegsAux rest (c :: acc)

/-- Split a path string into its raw segments (empty segments included). -/
def splitPath (p : String) : List String :=
  (splitSegsAux p.data []).map (fun cs => String.mk cs)

/-- Resolution of dot and dot-dot segments as Node path.normalize performs
it on an absolute POSIX path: empty and dot segments vanish, a dot-dot
segment removes the previous segment and is dropped at the root. -/
def normSegs (segs : List String) : List String :=
  segs.foldl
    (fun acc seg =>
      if seg = "" ∨ seg = "." then acc
      else if seg = ".." then acc.dropLast
      else acc ++ [seg])
    []

/-- Join segments back into one string separated by slashes. -/
def joinSegs : List String → String
  | [] => ""
  | [s] => s
  | s :: rest => s ++ "/" ++ joinSegs rest

/-- Render an absolute path from resolved segments. -/
def renderAbs (segs : List String) : String :=
  "/" ++ joinSegs segs

/-- Node path.join of an absolute base and a path: concatenate with a
separator and normalize. -/
def pathJoin (a b : String) : String :=
  renderAbs (normSegs (splitPath a ++ splitPath b))

/-- Node path.normalize restricted to absolute POSIX paths. -/
def pathNormalizeAbs (p : String) : String :=
  renderAbs (normSegs (splitPath p))

/-- String prefix test, as the JavaScript startsWith used at
server.cjs line 78. -/
def strStartsWith (s p : String) : Bool :=
  p.data.isPrefixOf s.data

/-- Whether a normalized absolute path lies inside a directory: the
directory segments are a segment-wise prefix of the path segments. -/
def insideDirectory (d f : String) : Bool :=
  (normSegs (splitPath d)).isPrefixOf (normSegs (splitPath f))

/-- Outcome of a static file request. -/
inductive StaticOutcome
  | serve (filePath : String)
  | forbidden
deriving DecidableEq, Repr

/-- The static branch of TARSWebServer.handleRequest (server.cjs lines
62 to 84): a root path becomes /index.html, the path is joined onto the
server directory, normalized, and served only when the normalized path
starts with the server directory string; otherwise 403 Forbidden. -/
def handleStaticRequest (dirname pathname : String) : StaticOutcome :=
  let filePath0 := if pathname = "/" then "/index.html" else pathname
  let filePath := pathJoin dirname filePath0
  let normalizedPath := pathNormalizeAbs filePath
  if strStartsWith normalizedPath dirname then StaticOutcome.serve filePath
  else StaticOutcome.forbidden

/-- Personality values as the server reports them. -/
structure Personality where
  humor : Nat
  honesty : Nat
  sarcasm : Nat
  mission_focus : Nat
deriving DecidableEq, Repr

/-- Mutable per-instance state of TARSWebServer: the constructor stores
only the port and the static mime table; no handler writes any other
instance field (server.cjs lines 8 to 23). -/
structure ServerState where
  port : Nat
deriving DecidableEq, Repr

/-- One API request to the server, method and endpoint combined.  The chat
body text generation and the artificial delays are not modelled; no claim
concerns them. -/
inductive ApiCall
  | personalityGet
  | personalityPost (humor honesty sarcasm : Nat)
  | statusGet
  | modelsGet
  | modelsPost (model : String)
  | emergencyStop
  | chat (message context : String)
deriving DecidableEq, Repr

/-- The JSON payloads the API handlers return, with their literal field
values (server.cjs lines 140 to 272).  The canned chat text is carried
abstractly as the submitted message and context. -/
inductive ApiResponse
  | personalityResp (success : Bool) (p : Personality)
  | personalityUpdateResp (success : Bool) (p : Personality)
  | statusResp (success : Bool) (status model : String) (p : Personality)
  | modelsResp (success : Bool) (models : List (String × String × String))
      (current : String)
  | modelSwitchResp (success : Bool) (current_model : String)
  | emergencyResp (success : Bool) (status : String)
  | chatResp (success : Bool) (message context : String)
deriving DecidableEq, Repr

/-- The model list returned by GET /api/tars/models (server.cjs lines
219 to 229): name, status, description. -/
def modelTable : List (String × String × String) :=
  [("codellama:7b-instruct", "active", "Code generation and analysis"),
   ("tars-engineering", "available", "TARS Engineering Model"),
   ("phi3:mini", "available", "Lightweight reasoning model"),
   ("gemma:2b", "available", "Fast response model")]

/-- TARSWebServer.handleAPI dispatch (server.cjs lines 86 to 272): each
handler builds its response from literals and the request body; none of
them reads or writes any instance state, so the state component is
returned unchanged. -/
def handleAPI (st : ServerState) : ApiCall → ServerState × ApiResponse
  | .personalityGet =>
      (st, .personalityResp true ⟨75, 90, 30, 100⟩)
  | .personalityPost h o sa =>
      (st, .personalityUpdateResp true ⟨h, o, sa, 100⟩)
  | .statusGet =>
      (st, .statusResp true "operational" "codellama:7b-instruct"
             ⟨75, 90, 30, 100⟩)
  | .modelsGet =>
      (st, .modelsResp true modelTable "codellama:7b-instruct")
  | .modelsPost m =>
      (st, .modelSwitchResp true m)
  | .emergencyStop =>
      (st, .emergencyResp true "emergency_stop")
  | .chat msg ctx =>
      (st, .chatResp true msg ctx)

/-- Server state after a sequence of API calls. -/
def applyCalls (st : ServerState) (calls : List ApiCall) : ServerState :=
  calls.foldl (fun s c => (handleAPI s c).1) st

/-! ## Invariant infrastructure for the engine -/

lemma requests_putReq (s : EngineState) (k : Nat) (r : OperationRequest)
    (recs : List AuditRecord) (i : Nat) :
    (putReq s k r recs).requests i = if i = k then some r else s.requests i := rfl

lemma execCount_putReq (s : EngineState) (k : Nat) (r : OperationRequest)
    (recs : List AuditRecord) (i : Nat) :
    execCount (putReq s k r recs) i = execCount s i := rfl

lemma reqStatus_putReq (s : EngineState) (k : Nat) (r : OperationRequest)
    (recs : List AuditRecord) (i : Nat) :
    reqStatus (putReq s k r recs) i
      = if i = k then some r.status else reqStatus s i := by
  by_cases h : i = k <;> simp [reqStatus, putReq, h]

lemma reqStatus_addReq (s : EngineState) (r : OperationRequest)
    (recs : List AuditRecord) (i : Nat) :
    reqStatus (addReq s r recs) i
      = if i = s.nextId then some r.status else reqStatus s i := by
  by_cases h : i = s.nextId <;> simp [reqStatus, addReq, h]

lemma execCount_pushExec (s : EngineState) (e : ExecCall) (i : Nat) :
    execCount (pushExec s e) i
      = execCount s i + (if e.rid == i then 1 else 0) := by
  simp only [execCount, pushExec, List.filter_append, List.length_append]
  cases h : (e.rid == i) <;> simp [List.filter, h]

/-- The engine invariant maintained along every step: ids above the id
generator are unassigned; every stored request carries the risk computed by
classify_risk from its own operation kind and parameters; the Executor has
been invoked at most once per id, never for a request that has not reached
Executed or Failed; and every recorded Executor call carries the operation
kind and parameters of its request. -/
def goodState (cfg : EngineConfig) (s : EngineState) : Prop :=
  (∀ i, s.nextId ≤ i → s.requests i = none) ∧
  (∀ i r, s.requests i = some r →
      r.risk_level = classify_risk cfg.riskTable r.operation_kind r.parameters) ∧
  (∀ i, execCount s i ≤ 1) ∧
  (∀ i r, s.requests i = some r → touchedExec r.status = false →
      execCount s i = 0) ∧
  (∀ e ∈ s.execLog, ∃ r, s.requests e.rid = some r ∧
      e.operation_kind = r.operation_kind ∧ e.parameters = r.parameters)

lemma execCount_zero_of_no_req {s : EngineState}
    (hF : ∀ e ∈ s.execLog, ∃ r, s.requests e.rid = some r ∧
        e.operation_kind = r.operation_kind ∧ e.parameters = r.parameters)
    {i : Nat} (hi : s.requests i = none) : execCount s i = 0 := by
  by_contra hne
  have hnil : s.execLog.filter (fun e => e.rid == i) ≠ [] := by
    intro hh
    exact hne (by simp [execCount, hh])
  obtain ⟨e, he⟩ := List.exists_mem_of_ne_nil _ hnil
  have hmem := List.mem_filter.1 he
  obtain ⟨r, hr, -, -⟩ := hF e hmem.1
  have heq : e.rid = i := by simpa using hmem.2
  rw [heq, hi] at hr
  cases hr

lemma goodState_init (cfg : EngineConfig) : goodState cfg initState := by
  refine ⟨fun i _ => rfl, ?_, ?_, ?_, ?_⟩
  · intro i r h
    cases h
  · intro i
    simp [execCount, initState]
  · intro i r h
    cases h
  · intro e he
    simp [initState] at he

lemma goodState_putReq {cfg : EngineConfig} {s : EngineState} {k : Nat}
    {r r1 : OperationRequest} {recs : List AuditRecord}
    (h : goodState cfg s) (hfind : s.requests k = some r)
    (hop : r1.operation_kind = r.operation_kind)
    (hpar : r1.parameters = r.parameters)
    (hrisk : r1.risk_level = r.risk_level)
    (hE : touchedExec r1.status = false → execCount s k = 0) :
    goodState cfg (putReq s k r1 recs) := by
  obtain ⟨hA, hB, hC, hD, hF⟩ := h
  have hklt : ¬ s.nextId ≤ k := by
    intro hle
    rw [hA k hle] at hfind
    cases hfind
  refine ⟨?_, ?_, ?_, ?_, ?_⟩
  · intro i hi
    have hik : i ≠ k := by
      intro he
      exact hklt (he ▸ hi)
    rw [requests_putReq, if_neg hik]
    exact hA i hi
  · intro i rr hrr
    rw [requests_putReq] at hrr
    by_cases hik : i = k
    · rw [if_pos hik] at hrr
      cases hrr
      rw [hrisk, hop, hpar]
      exact hB k r hfind
    · rw [if_neg hik] at hrr
      exact hB i rr hrr
  · intro i
    rw [execCount_putReq]
    exact hC i
  · intro i rr hrr htch
    rw [requests_putReq] at hrr
    rw [execCount_putReq]
    by_cases hik : i = k
    · rw [if_pos hik] at hrr
      cases hrr
      rw [hik]
      exact hE htch
    · rw [if_neg hik] at hrr
      exact hD i rr hrr htch
  · intro e he
    obtain ⟨rr, hrr, h1, h2⟩ := hF e he
    by_cases hik : e.rid = k
    · refine ⟨r1, ?_, ?_, ?_⟩
      · rw [requests_putReq, if_pos hik]
      · rw [hik, hfind] at hrr
        cases hrr
        rw [hop]
        exact h1
      · rw [hik, hfind] at hrr
        cases hrr
        rw [hpar]
        exact h2
    · exact ⟨rr, by rw [requests_putReq, if_neg hik]; exact hrr, h1, h2⟩

lemma goodState_addReq {cfg : EngineConfig} {s : EngineState}
    {r : OperationRequest} {recs : List AuditRecord}
    (h : goodState cfg s)
    (hrisk : r.risk_level
        = classify_risk cfg.riskTable r.operation_kind r.parameters)
    (htch : touchedExec r.status = false) :
    goodState cfg (addReq s r recs) := by
  obtain ⟨hA, hB, hC, hD, hF⟩ := h
  have hfresh : s.requests s.nextId = none := hA s.nextId (Nat.le_refl _)
  refine ⟨?_, ?_, ?_, ?_, ?_⟩
  · intro i hi
    have h1 : s.nextId ≤ i := Nat.le_of_succ_le hi
    have h2 : i ≠ s.nextId := by
      intro he
      rw [he] at hi
      exact Nat.not_succ_le_self _ hi
    show (if i = s.nextId then some r else s.requests i) = none
    rw [if_neg h2]
    exact hA i h1
  · intro i rr hrr
    have hrr' : (if i = s.nextId then some r else s.requests i) = some rr := hrr
    by_cases hik : i = s.nextId
    · rw [if_pos hik] at hrr'
      cases hrr'
      exact hrisk
    · rw [if_neg hik] at hrr'
      exact hB i rr hrr'
  · intro i
    exact hC i
  · intro i rr hrr htc
    have hrr' : (if i = s.nextId then some r else s.requests i) = some rr := hrr
    show execCount s i = 0
    by_cases hik : i = s.nextId
    · rw [hik]
      exact execCount_zero_of_no_req hF hfresh
    · rw [if_neg hik] at hrr'
      exact hD i rr hrr' htc
  · intro e he
    obtain ⟨rr, hrr, h1, h2⟩ := hF e he
    have hik : e.rid ≠ s.nextId := by
      intro heq
      rw [heq, hfresh] at hrr
      cases hrr
    refine ⟨rr, ?_, h1, h2⟩
    show (if e.rid = s.nextId then some r else s.requests e.rid) = some rr
    rw [if_neg hik]
    exact hrr

lemma goodState_execMain {cfg : EngineConfig} {s : EngineState} {k : Nat}
    {r : OperationRequest} {st1 : Status} {recs0 recs1 : List AuditRecord}
    (h : goodState cfg s) (hfind : s.requests k = some r)
    (hpre : touchedExec r.status = false)
    (htch : touchedExec st1 = true) :
    goodState cfg (putReq
      (pushExec (appendAudit s recs0) ⟨k, r.operation_kind, r.parameters⟩)
      k (withStatus r st1) recs1) := by
  obtain ⟨hA, hB, hC, hD, hF⟩ := h
  have hklt : ¬ s.nextId ≤ k := by
    intro hle
    rw [hA k hle] at hfind
    cases hfind
  have hcnt : ∀ i, execCount (putReq
      (pushExec (appendAudit s recs0) ⟨k, r.operation_kind, r.parameters⟩)
      k (withStatus r st1) recs1) i
      = execCount s i + (if k == i then 1 else 0) := by
    intro i
    rw [execCount_putReq, execCount_pushExec]
    rfl
  have hreqs : ∀ i, (putReq
      (pushExec (appendAudit s recs0) ⟨k, r.operation_kind, r.parameters⟩)
      k (withStatus r st1) recs1).requests i
      = if i = k then some (withStatus r st1) else s.requests i := by
    intro i
    rfl
  have hlog : (putReq
      (pushExec (appendAudit s recs0) ⟨k, r.operation_kind, r.parameters⟩)
      k (withStatus r st1) recs1).execLog
      = s.execLog ++ [⟨k, r.operation_kind, r.parameters⟩] := rfl
  refine ⟨?_, ?_, ?_, ?_, ?_⟩
  · intro i hi
    have hik : i ≠ k := by
      intro he
      exact hklt (he ▸ hi)
    rw [hreqs, if_neg hik]
    exact hA i hi
  · intro i rr hrr
    rw [hreqs] at hrr
    by_cases hik : i = k
    · rw [if_pos hik] at hrr
      cases hrr
      exact hB k r hfind
    · rw [if_neg hik] at hrr
      exact hB i rr hrr
  · intro i
    rw [hcnt]
    by_cases hik : k = i
    · have h0 : execCount s i = 0 := by
        rw [← hik]
        exact hD k r hfind hpre
      simp [hik, h0]
    · have : (k == i) = false := by simpa using hik
      simp [this]
      exact hC i
  · intro i rr hrr htc
    rw [hreqs] at hrr
    rw [hcnt]
    by_cases hik : i = k
    · rw [if_pos hik] at hrr
      cases hrr
      rw [withStatus_status, htch] at htc
      cases htc
    · rw [if_neg hik] at hrr
      have hki : (k == i) = false := by
        simp
        intro he
        exact hik he.symm
      rw [hki]
      simp
      exact hD i rr hrr htc
  · intro e he
    rw [hlog] at he
    rcases List.mem_append.1 he with hold | hnew
    · obtain ⟨rr, hrr, h1, h2⟩ := hF e hold
      by_cases hik : e.rid = k
      · refine ⟨withStatus r st1, ?_, ?_, ?_⟩
        · rw [hreqs, if_pos hik]
        · rw [hik, hfind] at hrr
          cases hrr
          exact h1
        · rw [hik, hfind] at hrr
          cases hrr
          exact h2
      · exact ⟨rr, by rw [hreqs, if_neg hik]; exact hrr, h1, h2⟩
    · have he' : e = ⟨k, r.operation_kind, r.parameters⟩ := by
        simpa using hnew
      subst he'
      exact ⟨withStatus r st1, by rw [hreqs, if_pos rfl], rfl, rfl⟩

lemma goodState_submitFn (cfg : EngineConfig) (s : EngineState) (now : Nat)
    (operation_kind : String) (parameters : List (String × String))
    (requester : String) (auditOk : Bool) (h : goodState cfg s) :
    goodState cfg
      (submitFn cfg s now operation_kind parameters requester auditOk).2 := by
  unfold submitFn
  cases auditOk with
  | false => simpa using h
  | true =>
    simp only [if_true]
    cases hev : evaluate
        (mkRequest cfg s.nextId now operation_kind parameters requester)
        cfg.rules with
    | none =>
      exact goodState_addReq h rfl rfl
    | some rule =>
      exact goodState_addReq h rfl rfl

lemma goodState_decideFn (s : EngineState) (now rid : Nat) (d : Decision)
    (decided_by reason : String) (conditions : List String) (auditOk : Bool)
    {cfg : EngineConfig} (h : goodState cfg s) :
    goodState cfg
      (decideFn s now rid d decided_by reason conditions auditOk).2 := by
  unfold decideFn
  cases hfind : s.requests rid with
  | none => simpa using h
  | some r =>
    simp only []
    split
    · rename_i hpend
      have hz : execCount s rid = 0 :=
        h.2.2.2.1 rid r hfind (by rw [hpend]; rfl)
      split
      · split
        · exact goodState_putReq h hfind rfl rfl rfl (fun _ => hz)
        · exact goodState_putReq h hfind rfl rfl rfl
            (fun hc => by simp [touchedExec] at hc)
      · split
        · cases d with
          | Approve =>
            exact goodState_putReq h hfind rfl rfl rfl (fun _ => hz)
          | Deny =>
            exact goodState_putReq h hfind rfl rfl rfl (fun _ => hz)
        · exact goodState_putReq h hfind rfl rfl rfl
            (fun hc => by simp [touchedExec] at hc)
    · exact h

lemma goodState_sweepFn (s : EngineState) (now rid : Nat) (auditOk : Bool)
    {cfg : EngineConfig} (h : goodState cfg s) :
    goodState cfg (sweepFn s now rid auditOk) := by
  unfold sweepFn
  cases hfind : s.requests rid with
  | none => exact h
  | some r =>
    simp only []
    split
    · rename_i hcond
      have hz : execCount s rid = 0 :=
        h.2.2.2.1 rid r hfind (by rw [hcond.1]; rfl)
      split
      · exact goodState_putReq h hfind rfl rfl rfl (fun _ => hz)
      · exact goodState_putReq h hfind rfl rfl rfl
          (fun hc => by simp [touchedExec] at hc)
    · exact h

lemma goodState_execFn (s : EngineState) (now rid : Nat)
    (execResult : Except String String) (auditOk1 auditOk2 : Bool)
    {cfg : EngineConfig} (h : goodState cfg s) :
    goodState cfg (execFn s now rid execResult auditOk1 auditOk2).2 := by
  unfold execFn
  cases hfind : s.requests rid with
  | none => simpa using h
  | some r =>
    simp only []
    split
    · rename_i happr
      have hpre : touchedExec r.status = false := by
        rcases happr with h1 | h1 <;> rw [h1] <;> rfl
      split
      · split
        · split
          · apply goodState_execMain h hfind hpre
            rfl
          · apply goodState_execMain h hfind hpre
            rfl
        · split
          · apply goodState_execMain h hfind hpre
            rfl
          · apply goodState_execMain h hfind hpre
            rfl
      · exact goodState_putReq h hfind rfl rfl rfl
          (fun hc => by simp [touchedExec] at hc)
    · exact h

lemma goodState_step {cfg : EngineConfig} {s t : EngineState}
    (h : goodState cfg s) (hst : Step cfg s t) : goodState cfg t := by
  cases hst with
  | submit now opk params requester auditOk =>
    exact goodState_submitFn cfg s now opk params requester auditOk h
  | decideStep now rid d db rsn conds auditOk =>
    exact goodState_decideFn s now rid d db rsn conds auditOk h
  | sweep now rid auditOk =>
    exact goodState_sweepFn s now rid auditOk h
  | execStep now rid er a1 a2 =>
    exact goodState_execFn s now rid er a1 a2 h

lemma reachable_good {cfg : EngineConfig} {s : EngineState}
    (h : Reachable cfg s) : goodState cfg s := by
  induction h with
  | init => exact goodState_init cfg
  | step _ hst ih => exact goodState_step ih hst

lemma reqStatus_unique {s : EngineState} {i : Nat} {st st' : Status}
    (h1 : reqStatus s i = some st) (h2 : reqStatus s i = some st') :
    st' = st := by
  rw [h1] at h2
  cases h2
  rfl

lemma reqStatus_pushAudit (s : EngineState) (recs : List AuditRecord)
    (e : ExecCall) (i : Nat) :
    reqStatus (pushExec (appendAudit s recs) e) i = reqStatus s i := rfl

lemma reqStatus_of_requests {s : EngineState} {i : Nat} {r : OperationRequest}
    (h : s.requests i = some r) : reqStatus s i = some r.status := by
  simp [reqStatus, h]

lemma submit_status_change {cfg : EngineConfig} {s : EngineState} {now : Nat}
    {opk : String} {params : List (String × String)} {requester : String}
    {auditOk : Bool} {i : Nat} {st st' : Status}
    (hg : goodState cfg s)
    (h1 : reqStatus s i = some st)
    (h2 : reqStatus (submitFn cfg s now opk params requester auditOk).2 i
        = some st') :
    st' = st := by
  have hne : i ≠ s.nextId := by
    intro he
    have := hg.1 s.nextId (Nat.le_refl _)
    rw [he] at h1
    simp [reqStatus, this] at h1
  unfold submitFn at h2
  split at h2
  · split at h2
    · rw [reqStatus_addReq, if_neg hne] at h2
      exact reqStatus_unique h1 h2
    · rw [reqStatus_addReq, if_neg hne] at h2
      exact reqStatus_unique h1 h2
  · exact reqStatus_unique h1 h2

lemma decide_status_change {s : EngineState} {now rid : Nat} {d : Decision}
    {db rsn : String} {conds : List String} {auditOk : Bool} {i : Nat}
    {st st' : Status}
    (h1 : reqStatus s i = some st)
    (h2 : reqStatus (decideFn s now rid d db rsn conds auditOk).2 i
        = some st') :
    st' = st ∨ (st = Status.Pending ∧
      (st' = Status.Approved ∨ st' = Status.Denied ∨ st' = Status.Expired ∨
       st' = Status.Failed)) := by
  unfold decideFn at h2
  split at h2
  · exact Or.inl (reqStatus_unique h1 h2)
  · rename_i r hfind
    have hstat : reqStatus s rid = some r.status := reqStatus_of_requests hfind
    split at h2
    · rename_i hpend
      split at h2
      · split at h2
        · rw [reqStatus_putReq] at h2
          by_cases hik : i = rid
          · rw [if_pos hik] at h2
            cases h2
            refine Or.inr ⟨?_, by simp⟩
            rw [hik] at h1
            rw [← hpend]
            exact (reqStatus_unique h1 hstat).symm ▸ reqStatus_unique hstat h1 ▸ rfl
          · rw [if_neg hik] at h2
            exact Or.inl (reqStatus_unique h1 h2)
        · rw [reqStatus_putReq] at h2
          by_cases hik : i = rid
          · rw [if_pos hik] at h2
            cases h2
            refine Or.inr ⟨?_, by simp⟩
            rw [hik] at h1
            have := reqStatus_unique hstat h1
            rw [this, hpend]
          · rw [if_neg hik] at h2
            exact Or.inl (reqStatus_unique h1 h2)
      · split at h2
        · split at h2
          · rw [reqStatus_putReq] at h2
            by_cases hik : i = rid
            · rw [if_pos hik] at h2
              cases h2
              refine Or.inr ⟨?_, by simp⟩
              rw [hik] at h1
              have := reqStatus_unique hstat h1
              rw [this, hpend]
            · rw [if_neg hik] at h2
              exact Or.inl (reqStatus_unique h1 h2)
          · rw [reqStatus_putReq] at h2
            by_cases hik : i = rid
            · rw [if_pos hik] at h2
              cases h2
              refine Or.inr ⟨?_, by simp⟩
              rw [hik] at h1
              have := reqStatus_unique hstat h1
              rw [this, hpend]
            · rw [if_neg hik] at h2
              exact Or.inl (reqStatus_unique h1 h2)
        · rw [reqStatus_putReq] at h2
          by_cases hik : i = rid
          · rw [if_pos hik] at h2
            cases h2
            refine Or.inr ⟨?_, by simp⟩
            rw [hik] at h1
            have := reqStatus_unique hstat h1
            rw [this, hpend]
          · rw [if_neg hik] at h2
            exact Or.inl (reqStatus_unique h1 h2)
    · exact Or.inl (reqStatus_unique h1 h2)

lemma sweep_status_change {s : EngineState} {now rid : Nat} {auditOk : Bool}
    {i : Nat} {st st' : Status}
    (h1 : reqStatus s i = some st)
    (h2 : reqStatus (sweepFn s now rid auditOk) i = some st') :
    st' = st ∨ (st = Status.Pending ∧
      (st' = Status.Expired ∨ st' = Status.Failed)) := by
  unfold sweepFn at h2
  split at h2
  · exact Or.inl (reqStatus_unique h1 h2)
  · rename_i r hfind
    have hstat : reqStatus s rid = some r.status := reqStatus_of_requests hfind
    split at h2
    · rename_i hcond
      split at h2
      · rw [reqStatus_putReq] at h2
        by_cases hik : i = rid
        · rw [if_pos hik] at h2
          cases h2
          refine Or.inr ⟨?_, by simp⟩
          rw [hik] at h1
          have := reqStatus_unique hstat h1
          rw [this, hcond.1]
        · rw [if_neg hik] at h2
          exact Or.inl (reqStatus_unique h1 h2)
      · rw [reqStatus_putReq] at h2
        by_cases hik : i = rid
        · rw [if_pos hik] at h2
          cases h2
          refine Or.inr ⟨?_, by simp⟩
          rw [hik] at h1
          have := reqStatus_unique hstat h1
          rw [this, hcond.1]
        · rw [if_neg hik] at h2
          exact Or.inl (reqStatus_unique h1 h2)
    · exact Or.inl (reqStatus_unique h1 h2)

lemma exec_status_change {s : EngineState} {now rid : Nat}
    {er : Except String String} {a1 a2 : Bool} {i : Nat} {st st' : Status}
    (h1 : reqStatus s i = some st)
    (h2 : reqStatus (execFn s now rid er a1 a2).2 i = some st') :
    st' = st ∨ ((st = Status.AutoApproved ∨ st = Status.Approved) ∧
      (st' = Status.Executed ∨ st' = Status.Failed)) := by
  unfold execFn at h2
  split at h2
  · exact Or.inl (reqStatus_unique h1 h2)
  · rename_i r hfind
    have hstat : reqStatus s rid = some r.status := reqStatus_of_requests hfind
    split at h2
    · rename_i happr
      have hback : i = rid → st = r.status := by
        intro hik
        rw [hik] at h1
        exact reqStatus_unique hstat h1
      split at h2
      · split at h2
        · split at h2
          · rw [reqStatus_putReq] at h2
            by_cases hik : i = rid
            · rw [if_pos hik] at h2
              cases h2
              exact Or.inr ⟨(hback hik) ▸ happr, by simp⟩
            · rw [if_neg hik, reqStatus_pushAudit] at h2
              exact Or.inl (reqStatus_unique h1 h2)
          · rw [reqStatus_putReq] at h2
            by_cases hik : i = rid
            · rw [if_pos hik] at h2
              cases h2
              exact Or.inr ⟨(hback hik) ▸ happr, by simp⟩
            · rw [if_neg hik, reqStatus_pushAudit] at h2
              exact Or.inl (reqStatus_unique h1 h2)
        · split at h2
          · rw [reqStatus_putReq] at h2
            by_cases hik : i = rid
            · rw [if_pos hik] at h2
              cases h2
              exact Or.inr ⟨(hback hik) ▸ happr, by simp⟩
            · rw [if_neg hik, reqStatus_pushAudit] at h2
              exact Or.inl (reqStatus_unique h1 h2)
          · rw [reqStatus_putReq] at h2
            by_cases hik : i = rid
            · rw [if_pos hik] at h2
              cases h2
              exact Or.inr ⟨(hback hik) ▸ happr, by simp⟩
            · rw [if_neg hik, reqStatus_pushAudit] at h2
              exact Or.inl (reqStatus_unique h1 h2)
      · rw [reqStatus_putReq] at h2
        by_cases hik : i = rid
        · rw [if_pos hik] at h2
          cases h2
          exact Or.inr ⟨(hback hik) ▸ happr, by simp⟩
        · rw [if_neg hik] at h2
          exact Or.inl (reqStatus_unique h1 h2)
    · exact Or.inl (reqStatus_unique h1 h2)

/-! ## The request status machine -/

/-- The status machine exactly as the specification overview draws it:
Pending to the four decision outcomes, and each decision outcome to
Executed or Failed. -/
def claimedEdge : Status → Status → Bool
  | .Pending, .AutoApproved => true
  | .Pending, .Approved => true
  | .Pending, .Denied => true
  | .Pending, .Expired => true
  | .AutoApproved, .Executed => true
  | .AutoApproved, .Failed => true
  | .Approved, .Executed => true
  | .Approved, .Failed => true
  | .Denied, .Executed => true
  | .Denied, .Failed => true
  | .Expired, .Executed => true
  | .Expired, .Failed => true
  | _, _ => false

/-- The edges the engine actually takes: execution departs only from
AutoApproved or Approved, and a Pending request moves directly to Failed
when an audit append fails during one of its transitions. -/
def actualEdge : Status → Status → Bool
  | .Pending, .AutoApproved => true
  | .Pending, .Approved => true
  | .Pending, .Denied => true
  | .Pending, .Expired => true
  | .Pending, .Failed => true
  | .AutoApproved, .Executed => true
  | .AutoApproved, .Failed => true
  | .Approved, .Executed => true
  | .Approved, .Failed => true
  | _, _ => false

lemma step_status_change {cfg : EngineConfig} {s t : EngineState}
    (hg : goodState cfg s) (hst : Step cfg s t) {i : Nat} {st st' : Status}
    (h1 : reqStatus s i = some st) (h2 : reqStatus t i = some st') :
    st' = st ∨ actualEdge st st' = true := by
  cases hst with
  | submit now opk params requester auditOk =>
    exact Or.inl (submit_status_change hg h1 h2)
  | decideStep now rid d db rsn conds auditOk =>
    rcases decide_status_change h1 h2 with h | ⟨hp, hcase⟩
    · exact Or.inl h
    · right
      rcases hcase with h' | h' | h' | h' <;> rw [hp, h'] <;> rfl
  | sweep now rid auditOk =>
    rcases sweep_status_change h1 h2 with h | ⟨hp, hcase⟩
    · exact Or.inl h
    · right
      rcases hcase with h' | h' <;> rw [hp, h'] <;> rfl
  | execStep now rid er a1 a2 =>
    rcases exec_status_change h1 h2 with h | ⟨hp, hcase⟩
    · exact Or.inl h
    · right
      rcases hp with hp | hp <;> rcases hcase with h' | h' <;>
        rw [hp, h'] <;> rfl

/-- Claim C1 exactly as stated: along every step out of a reachable state,
every stored request changes status only along the edges of the claimed
machine, never re-enters Pending, and reaches Executed only from
AutoApproved or Approved. -/
def statusMachineClaim (cfg : EngineConfig) : Prop :=
  ∀ s t, Reachable cfg s → Step cfg s t →
    ∀ i st st', reqStatus s i = some st → reqStatus t i = some st' →
      (st' = st ∨ claimedEdge st st' = true) ∧
      (st' = Status.Pending → st = Status.Pending) ∧
      (st' = Status.Executed → st ≠ Status.Executed →
        st = Status.AutoApproved ∨ st = Status.Approved)

/-- Engine configuration for the concrete runs: no auto-approval rules,
empty classification tables, a flat TTL of sixty time units. -/
def cfgPlain : EngineConfig :=
  { riskTable := [], permTable := [], ttl := fun _ => 60, rules := [] }

/-- State after submitting one request under cfgPlain: no rule matches, so
request 0 is Pending with expiry at time 60. -/
def statePending : EngineState :=
  (submitFn cfgPlain initState 0 "write_file" [] "caller" true).2

/-- State after a decision call on the Pending request hits an audit
storage failure: the request moves directly from Pending to Failed. -/
def stateAuditFail : EngineState :=
  (decideFn statePending 5 0 Decision.Approve "alice" "ok" [] false).2

/-- State after the Pending request is denied with audit storage
available. -/
def stateDenied : EngineState :=
  (decideFn statePending 5 0 Decision.Deny "alice" "out of scope" [] true).2

lemma reach_statePending : Reachable cfgPlain statePending :=
  Reachable.step Reachable.init
    (Step.submit initState 0 "write_file" [] "caller" true)

/-- C1 counterexample: the claimed status machine is violated by the
engine itself.  Under cfgPlain, request 0 is Pending after submit; a
decide call whose audit append fails moves it directly from Pending to
Failed, an edge absent from the claimed machine. -/
theorem C1_state_machine_counterexample : ¬ (∀ cfg, statusMachineClaim cfg) := by
  intro hclaim
  have hstep : Step cfgPlain statePending stateAuditFail :=
    Step.decideStep statePending 5 0 Decision.Approve "alice" "ok" [] false
  have h1 : reqStatus statePending 0 = some Status.Pending := by decide
  have h2 : reqStatus stateAuditFail 0 = some Status.Failed := by decide
  have h := (hclaim cfgPlain statePending stateAuditFail reach_statePending
    hstep 0 Status.Pending Status.Failed h1 h2).1
  rcases h with h | h
  · cases h
  · exact absurd h (by decide)

/-- C1 (amended): along every step out of a reachable state, every stored
request changes status only along the actual machine edges, which are the
claimed edges restricted to execution from AutoApproved or Approved plus
the direct Pending to Failed edge taken when an audit append fails; no
request re-enters Pending after leaving it; and no request reaches
Executed without being AutoApproved or Approved immediately before. -/
theorem C1_state_machine_amended (cfg : EngineConfig) (s t : EngineState)
    (hre : Reachable cfg s) (hst : Step cfg s t) (i : Nat) (st st' : Status)
    (h1 : reqStatus s i = some st) (h2 : reqStatus t i = some st') :
    (st' = st ∨ actualEdge st st' = true) ∧
    (st' = Status.Pending → st = Status.Pending) ∧
    (st' = Status.Executed → st ≠ Status.Executed →
      st = Status.AutoApproved ∨ st = Status.Approved) := by
  have hmain := step_status_change (reachable_good hre) hst h1 h2
  refine ⟨hmain, ?_, ?_⟩
  · intro hp
    rcases hmain with h | h
    · rw [← h, hp]
    · rw [hp] at h
      cases st <;> exact Bool.noConfusion h
  · intro hex hne
    rcases hmain with h | h
    · exact absurd (h.symm.trans hex) hne
    · rw [hex] at h
      cases st with
      | AutoApproved => exact Or.inl rfl
      | Approved => exact Or.inr rfl
      | Pending => exact Bool.noConfusion h
      | Denied => exact Bool.noConfusion h
      | Expired => exact Bool.noConfusion h
      | Executed => exact Bool.noConfusion h
      | Failed => exact Bool.noConfusion h

/-- C1 witness: the amended theorem applied to the concrete step that
denies the Pending request 0 under cfgPlain. -/
theorem C1_state_machine_witness :
    (Status.Denied = Status.Pending
      ∨ actualEdge Status.Pending Status.Denied = true) ∧
    (Status.Denied = Status.Pending → Status.Pending = Status.Pending) ∧
    (Status.Denied = Status.Executed → Status.Pending ≠ Status.Executed →
      Status.Pending = Status.AutoApproved
        ∨ Status.Pending = Status.Approved) :=
  C1_state_machine_amended cfgPlain statePending stateDenied
    reach_statePending
    (Step.decideStep statePending 5 0 Decision.Deny "alice" "out of scope"
      [] true)
    0 Status.Pending Status.Denied (by decide) (by decide)

lemma execFn_no_call {s : EngineState} {now rid : Nat}
    {er : Except String String} {a1 a2 : Bool} {r : OperationRequest}
    (hfind : s.requests rid = some r)
    (hcond : ¬(r.status = Status.AutoApproved ∨ r.status = Status.Approved)) :
    execFn s now rid er a1 a2 = (Except.error ErrorKind.InvalidState, s) := by
  unfold execFn
  rw [hfind]
  exact if_neg hcond

/-- Auto-approval rule used in the concrete auto-approved run, taken from
the specification example: open_project up to risk Low. -/
def ruleOpen : AutoApprovalRule :=
  ⟨"rule-open", "open_project", RiskLevel.Low, [], Decision.Approve, true⟩

/-- Configuration with one auto-approval rule and open_project classified
Low. -/
def cfgAuto : EngineConfig :=
  { riskTable := [("open_project", RiskLevel.Low)], permTable := [],
    ttl := fun _ => 60, rules := [ruleOpen] }

/-- State after submitting open_project under cfgAuto: the rule matches,
so request 0 is AutoApproved at intake. -/
def stateAuto : EngineState :=
  (submitFn cfgAuto initState 0 "open_project" [] "ui" true).2

/-- State after the execution step runs the auto-approved request with a
successful Executor outcome. -/
def stateExec : EngineState :=
  (execFn stateAuto 1 0 (Except.ok "opened") true true).2

lemma reach_stateExec : Reachable cfgAuto stateExec :=
  Reachable.step
    (Reachable.step Reachable.init
      (Step.submit initState 0 "open_project" [] "ui" true))
    (Step.execStep stateAuto 1 0 (Except.ok "opened") true true)

/-- C2: in every reachable engine state the Executor has been invoked at
most once per request id, every recorded invocation carries exactly the
operation kind and parameters of its request, and running the execution
step on a request already Executed performs no further Executor call and
reports InvalidState. -/
theorem C2_executor_at_most_once (cfg : EngineConfig) (s : EngineState)
    (hre : Reachable cfg s) :
    (∀ i, execCount s i ≤ 1) ∧
    (∀ e ∈ s.execLog, ∃ r, s.requests e.rid = some r ∧
        e.operation_kind = r.operation_kind ∧ e.parameters = r.parameters) ∧
    (∀ i r now er a1 a2, s.requests i = some r →
        r.status = Status.Executed →
        (execFn s now i er a1 a2).2.execLog = s.execLog ∧
        (execFn s now i er a1 a2).1 = Except.error ErrorKind.InvalidState) := by
  obtain ⟨hA, hB, hC, hD, hF⟩ := reachable_good hre
  refine ⟨hC, hF, ?_⟩
  intro i r now er a1 a2 hfind hst
  have hcond : ¬(r.status = Status.AutoApproved ∨ r.status = Status.Approved) := by
    rw [hst]
    rintro (h | h) <;> cases h
  rw [execFn_no_call hfind hcond]
  exact ⟨rfl, rfl⟩

/-- C2 witness: the theorem applied to the concrete reachable state in
which the auto-approved request 0 has been executed once. -/
theorem C2_executor_at_most_once_witness : execCount stateExec 0 ≤ 1 :=
  (C2_executor_at_most_once cfgAuto stateExec reach_stateExec).1 0

lemma reach_stateDenied : Reachable cfgPlain stateDenied :=
  Reachable.step reach_statePending
    (Step.decideStep statePending 5 0 Decision.Deny "alice" "out of scope"
      [] true)

/-- The denied request 0 as stored in stateDenied. -/
def rDenied : OperationRequest :=
  withDecision (mkRequest cfgPlain 0 0 "write_file" [] "caller")
    Status.Denied ⟨"alice", Decision.Deny, "out of scope", [], 5⟩

/-- C3: in every reachable engine state, a request whose status is Denied
has an Executor call count of zero. -/
theorem C3_denied_never_executes (cfg : EngineConfig) (s : EngineState)
    (i : Nat) (r : OperationRequest) (hre : Reachable cfg s)
    (hfind : s.requests i = some r) (hst : r.status = Status.Denied) :
    execCount s i = 0 :=
  (reachable_good hre).2.2.2.1 i r hfind (by rw [hst]; rfl)

/-- C3 witness: the theorem applied to the concrete reachable state in
which request 0 has been denied. -/
theorem C3_denied_never_executes_witness : execCount stateDenied 0 = 0 :=
  C3_denied_never_executes cfgPlain stateDenied 0 rDenied reach_stateDenied
    (by decide) (by decide)

lemma decideFn_eq {s : EngineState} {now rid : Nat} {d : Decision}
    {db rsn : String} {conds : List String} {auditOk : Bool}
    {r : OperationRequest} (hfind : s.requests rid = some r) :
    decideFn s now rid d db rsn conds auditOk =
      (if r.status = Status.Pending then
        if r.expires_at ≤ now then
          if auditOk then
            (Except.error ErrorKind.Expired,
             putReq s rid (withStatus r Status.Expired)
               [⟨rid, AuditEvent.expired, now⟩])
          else
            (Except.error ErrorKind.StorageUnavailable,
             putReq s rid (withStatus r Status.Failed) [])
        else if auditOk then
          match d with
          | Decision.Approve =>
              (Except.ok (withDecision r Status.Approved
                 ⟨db, Decision.Approve, rsn, conds, now⟩),
               putReq s rid (withDecision r Status.Approved
                 ⟨db, Decision.Approve, rsn, conds, now⟩)
                 [⟨rid, AuditEvent.approved db, now⟩])
          | Decision.Deny =>
              (Except.ok (withDecision r Status.Denied
                 ⟨db, Decision.Deny, rsn, conds, now⟩),
               putReq s rid (withDecision r Status.Denied
                 ⟨db, Decision.Deny, rsn, conds, now⟩)
                 [⟨rid, AuditEvent.denied db, now⟩])
        else
          (Except.error ErrorKind.StorageUnavailable,
           putReq s rid (withStatus r Status.Failed) [])
      else (Except.error ErrorKind.InvalidState, s)) := by
  unfold decideFn
  rw [hfind]

/-- C4: a decide call succeeds only on a Pending request strictly before
its expiry; a request that has left Pending gets InvalidState; a Pending
request at or past expiry gets Expired whatever the decision value; a
terminal request always gets an error; and a legal decide with storage
available succeeds. -/
theorem C4_decide_guards (s : EngineState) (now rid : Nat) (d : Decision)
    (db rsn : String) (conds : List String) (auditOk : Bool)
    (r req' : OperationRequest) (hfind : s.requests rid = some r) :
    ((decideFn s now rid d db rsn conds auditOk).1 = Except.ok req' →
        r.status = Status.Pending ∧ now < r.expires_at) ∧
    (r.status ≠ Status.Pending →
        (decideFn s now rid d db rsn conds auditOk).1
          = Except.error ErrorKind.InvalidState) ∧
    (r.status = Status.Pending → r.expires_at ≤ now → auditOk = true →
        (decideFn s now rid d db rsn conds auditOk).1
          = Except.error ErrorKind.Expired) ∧
    (terminalStatus r.status = true →
        (decideFn s now rid d db rsn conds auditOk).1
          = Except.error ErrorKind.InvalidState) ∧
    (r.status = Status.Pending → now < r.expires_at → auditOk = true →
        isOkResult (decideFn s now rid d db rsn conds auditOk).1 = true) := by
  rw [decideFn_eq hfind]
  refine ⟨?_, ?_, ?_, ?_, ?_⟩
  · intro h
    by_cases hp : r.status = Status.Pending
    · refine ⟨hp, ?_⟩
      by_cases hexp : r.expires_at ≤ now
      · rw [if_pos hp, if_pos hexp] at h
        cases auditOk <;> simp at h
      · omega
    · rw [if_neg hp] at h
      simp at h
  · intro hp
    rw [if_neg hp]
  · intro hp hexp ha
    subst ha
    rw [if_pos hp, if_pos hexp, if_pos rfl]
  · intro hterm
    have hp : r.status ≠ Status.Pending := by
      intro he
      rw [he] at hterm
      cases hterm
    rw [if_neg hp]
  · intro hp hlt ha
    subst ha
    rw [if_pos hp, if_neg (by omega : ¬ r.expires_at ≤ now), if_pos rfl]
    cases d <;> rfl

/-- Configuration in which delete_branch is Critical with a TTL of 60
time units (one hour in minutes), matching the specification example. -/
def cfgCritical : EngineConfig :=
  { riskTable := [("delete_branch", RiskLevel.Critical)], permTable := [],
    ttl := fun rl => match rl with
      | RiskLevel.Critical => 60
      | _ => 1440,
    rules := [] }

/-- State after submitting delete_branch at time 0 under cfgCritical:
request 0 is Pending and expires at 60. -/
def stateCritical : EngineState :=
  (submitFn cfgCritical initState 0 "delete_branch" [] "caller" true).2

/-- C4 witness: the theorem applied to the Critical request decided at
created_at + 61 minutes, which fails with Expired. -/
theorem C4_decide_guards_witness :
    (decideFn stateCritical 61 0 Decision.Approve "human" "approve it"
      [] true).1 = Except.error ErrorKind.Expired :=
  (C4_decide_guards stateCritical 61 0 Decision.Approve "human" "approve it"
    [] true (mkRequest cfgCritical 0 0 "delete_branch" [] "caller")
    (mkRequest cfgCritical 0 0 "delete_branch" [] "caller")
    (by decide)).2.2.1 (by decide) (by decide) rfl

/-- C5: rule evaluation returns the first enabled matching rule in
declaration order (empty and cons equations), a returned match is an
enabled matching member of the list, no-match is exactly the absence of
any enabled matching rule, evaluation of identical inputs is identical
(the embedding is a pure function), and a submit outcome is never Denied:
a rule match can only grant approval. -/
theorem C5_rule_engine_first_match (req : OperationRequest)
    (rules rs : List AutoApprovalRule) (rule' m : AutoApprovalRule)
    (cfg : EngineConfig) (s : EngineState) (now : Nat) (opk : String)
    (params : List (String × String)) (requester : String) (auditOk : Bool)
    (req' : OperationRequest) :
    (evaluate req [] = none) ∧
    (evaluate req (rule' :: rs)
      = if rule'.enabled && ruleMatches rule' req then some rule'
        else evaluate req rs) ∧
    (evaluate req rules = some m →
      m.enabled = true ∧ ruleMatches m req = true ∧ m ∈ rules) ∧
    (evaluate req rules = none ↔
      ∀ x ∈ rules, ¬(x.enabled = true ∧ ruleMatches x req = true)) ∧
    (evaluate req rules = evaluate req rules) ∧
    ((submitFn cfg s now opk params requester auditOk).1 = Except.ok req' →
      req'.status = Status.Pending ∨ req'.status = Status.AutoApproved) := by
  refine ⟨rfl, ?_, ?_, ?_, rfl, ?_⟩
  · cases h : rule'.enabled && ruleMatches rule' req <;>
      simp [evaluate, List.find?_cons, h]
  · intro h
    have hp := List.find?_some h
    have hm := List.mem_of_find?_eq_some h
    rw [Bool.and_eq_true] at hp
    exact ⟨hp.1, hp.2, hm⟩
  · constructor
    · intro hn x hx hand
      have := List.find?_eq_none.mp hn x hx
      rw [Bool.and_eq_true] at this
      exact this ⟨hand.1, hand.2⟩
    · intro hall
      apply List.find?_eq_none.mpr
      intro x hx hp
      rw [Bool.and_eq_true] at hp
      exact hall x hx ⟨hp.1, hp.2⟩
  · intro h
    unfold submitFn at h
    cases auditOk with
    | false => simp at h
    | true =>
      rw [if_pos rfl] at h
      cases hev : evaluate (mkRequest cfg s.nextId now opk params requester)
          cfg.rules with
      | some rule =>
        rw [hev] at h
        simp at h
        rw [← h]
        exact Or.inr rfl
      | none =>
        rw [hev] at h
        simp at h
        rw [← h]
        exact Or.inl rfl

/-- C5 witness: the theorem applied to the specification example rule,
which is returned as the first match for an open_project request
classified Low. -/
theorem C5_rule_engine_first_match_witness :
    ruleOpen.enabled = true ∧
    ruleMatches ruleOpen (mkRequest cfgAuto 0 0 "open_project" [] "ui")
      = true ∧
    ruleOpen ∈ [ruleOpen] :=
  (C5_rule_engine_first_match
    (mkRequest cfgAuto 0 0 "open_project" [] "ui") [ruleOpen] [] ruleOpen
    ruleOpen cfgAuto initState 0 "open_project" [] "ui" true
    (mkRequest cfgAuto 0 0 "open_project" [] "ui")).2.2.1 (by decide)

lemma decideFn_notfound {s : EngineState} {now rid : Nat} {d : Decision}
    {db rsn : String} {conds : List String} {auditOk : Bool}
    (hm : s.requests rid = none) :
    decideFn s now rid d db rsn conds auditOk
      = (Except.error ErrorKind.InvalidState, s) := by
  unfold decideFn
  rw [hm]

lemma execFn_notfound {s : EngineState} {now rid : Nat}
    {er : Except String String} {a1 a2 : Bool}
    (hm : s.requests rid = none) :
    execFn s now rid er a1 a2 = (Except.error ErrorKind.InvalidState, s) := by
  unfold execFn
  rw [hm]

lemma execFn_audit1_fail {s : EngineState} {now rid : Nat}
    {er : Except String String} {a2 : Bool} {r : OperationRequest}
    (hfind : s.requests rid = some r)
    (happr : r.status = Status.AutoApproved ∨ r.status = Status.Approved) :
    execFn s now rid er false a2
      = (Except.error ErrorKind.StorageUnavailable,
         putReq s rid (withStatus r Status.Failed) []) := by
  unfold execFn
  split
  · rename_i hnone
    rw [hfind] at hnone
    cases hnone
  · rename_i r2 hr2
    rw [hfind] at hr2
    cases hr2
    rw [if_pos happr]
    cases er <;> rfl

lemma execFn_ok_eq {s : EngineState} {now rid : Nat} {summary : String}
    {r : OperationRequest} (hfind : s.requests rid = some r)
    (happr : r.status = Status.AutoApproved ∨ r.status = Status.Approved) :
    execFn s now rid (Except.ok summary) true true
      = (Except.ok (withStatus r Status.Executed),
         putReq (pushExec
             (appendAudit s [⟨rid, AuditEvent.executionStarted, now⟩])
             ⟨rid, r.operation_kind, r.parameters⟩)
           rid (withStatus r Status.Executed)
           [⟨rid, AuditEvent.executed summary, now⟩]) := by
  unfold execFn
  split
  · rename_i hnone
    rw [hfind] at hnone
    cases hnone
  · rename_i r2 hr2
    rw [hfind] at hr2
    cases hr2
    rw [if_pos happr]
    rfl

/-- C6: audit is write-ahead and a failing append aborts the transition.
With audit storage down, a decision on a Pending request and an execution
of an approved request both return StorageUnavailable, leave the request
Failed, and in the execution case never invoke the Executor.  With audit
storage up, a successful decision has its approval or denial record in the
log it reports, a successful execution has its execution record in the log
it reports, and a successful submit has its creation record in the log it
reports. -/
theorem C6_audit_write_ahead (cfg : EngineConfig) (s : EngineState)
    (now rid : Nat) (d : Decision) (db rsn : String) (conds : List String)
    (opk : String) (params : List (String × String)) (requester : String)
    (er : Except String String) (a2 : Bool) (r req' : OperationRequest)
    (summary : String) :
    (s.requests rid = some r → r.status = Status.Pending →
      (decideFn s now rid d db rsn conds false).1
        = Except.error ErrorKind.StorageUnavailable ∧
      reqStatus (decideFn s now rid d db rsn conds false).2 rid
        = some Status.Failed) ∧
    (s.requests rid = some r →
      (r.status = Status.AutoApproved ∨ r.status = Status.Approved) →
      (execFn s now rid er false a2).1
        = Except.error ErrorKind.StorageUnavailable ∧
      reqStatus (execFn s now rid er false a2).2 rid = some Status.Failed ∧
      (execFn s now rid er false a2).2.execLog = s.execLog) ∧
    ((decideFn s now rid d db rsn conds true).1 = Except.ok req' →
      (d = Decision.Approve →
        AuditRecord.mk rid (AuditEvent.approved db) now
          ∈ (decideFn s now rid d db rsn conds true).2.auditLog) ∧
      (d = Decision.Deny →
        AuditRecord.mk rid (AuditEvent.denied db) now
          ∈ (decideFn s now rid d db rsn conds true).2.auditLog)) ∧
    ((execFn s now rid (Except.ok summary) true true).1 = Except.ok req' →
      AuditRecord.mk rid (AuditEvent.executed summary) now
        ∈ (execFn s now rid (Except.ok summary) true true).2.auditLog) ∧
    ((submitFn cfg s now opk params requester true).1 = Except.ok req' →
      AuditRecord.mk s.nextId AuditEvent.created now
        ∈ (submitFn cfg s now opk params requester true).2.auditLog) := by
  refine ⟨?_, ?_, ?_, ?_, ?_⟩
  · intro hfind hp
    rw [decideFn_eq hfind, if_pos hp]
    by_cases hexp : r.expires_at ≤ now
    · rw [if_pos hexp, if_neg Bool.false_ne_true]
      exact ⟨rfl, by rw [reqStatus_putReq, if_pos rfl]; rfl⟩
    · rw [if_neg hexp, if_neg Bool.false_ne_true]
      exact ⟨rfl, by rw [reqStatus_putReq, if_pos rfl]; rfl⟩
  · intro hfind happr
    rw [execFn_audit1_fail hfind happr]
    exact ⟨rfl, by rw [reqStatus_putReq, if_pos rfl]; rfl, rfl⟩
  · intro h
    cases hm : s.requests rid with
    | none =>
      rw [decideFn_notfound hm] at h
      simp at h
    | some r2 =>
      rw [decideFn_eq hm] at h ⊢
      by_cases hp : r2.status = Status.Pending
      · by_cases hexp : r2.expires_at ≤ now
        · rw [if_pos hp, if_pos hexp, if_pos rfl] at h
          simp at h
        · rw [if_pos hp, if_neg hexp, if_pos rfl] at h ⊢
          refine ⟨?_, ?_⟩ <;> intro hd <;> subst hd <;> simp [putReq]
      · rw [if_neg hp] at h
        simp at h
  · intro h
    cases hm : s.requests rid with
    | none =>
      rw [execFn_notfound hm] at h
      simp at h
    | some r2 =>
      by_cases happr : r2.status = Status.AutoApproved
          ∨ r2.status = Status.Approved
      · rw [execFn_ok_eq hm happr]
        simp [putReq, pushExec, appendAudit]
      · rw [execFn_no_call hm happr] at h
        simp at h
  · intro _h
    unfold submitFn
    rw [if_pos rfl]
    cases hev : evaluate (mkRequest cfg s.nextId now opk params requester)
        cfg.rules with
    | some rule => simp [addReq]
    | none => simp [addReq]

/-- C6 witness: the theorem applied to the concrete decide call whose
audit append fails on the Pending request 0: it reports
StorageUnavailable and the request is Failed. -/
theorem C6_audit_write_ahead_witness :
    (decideFn statePending 5 0 Decision.Approve "alice" "ok" [] false).1
      = Except.error ErrorKind.StorageUnavailable ∧
    reqStatus (decideFn statePending 5 0 Decision.Approve "alice" "ok" []
      false).2 0 = some Status.Failed :=
  (C6_audit_write_ahead cfgPlain statePending 5 0 Decision.Approve "alice"
    "ok" [] "write_file" [] "caller" (Except.ok "done") true
    (mkRequest cfgPlain 0 0 "write_file" [] "caller")
    (mkRequest cfgPlain 0 0 "write_file" [] "caller") "done").1
    (by decide) (by decide)

/-- C7: classify_risk returns the table entry for a known operation kind,
exactly Medium for any unknown operation kind, is a pure function of its
arguments, and every request stored in a reachable engine state carries
exactly the risk level classify_risk computes from its own operation kind
and parameters, never a caller-supplied value. -/
theorem C7_classify_risk_spec (table : List (String × RiskLevel))
    (opk : String) (params : List (String × String)) (rl : RiskLevel)
    (cfg : EngineConfig) (s : EngineState) (i : Nat) (r : OperationRequest) :
    (List.lookup opk table = some rl →
      classify_risk table opk params = rl) ∧
    (List.lookup opk table = none →
      classify_risk table opk params = RiskLevel.Medium) ∧
    (classify_risk table opk params = classify_risk table opk params) ∧
    (Reachable cfg s → s.requests i = some r →
      r.risk_level
        = classify_risk cfg.riskTable r.operation_kind r.parameters) := by
  refine ⟨?_, ?_, rfl, ?_⟩
  · intro h
    unfold classify_risk
    rw [h]
  · intro h
    unfold classify_risk
    rw [h]
  · intro hre hfind
    exact (reachable_good hre).2.1 i r hfind

/-- C7 witness: the theorem applied to a table that classifies only
delete_branch: an unknown operation kind falls back to Medium. -/
theorem C7_classify_risk_spec_witness :
    classify_risk [("delete_branch", RiskLevel.Critical)] "fly_to_moon" []
      = RiskLevel.Medium :=
  (C7_classify_risk_spec [("delete_branch", RiskLevel.Critical)]
    "fly_to_moon" [] RiskLevel.Critical cfgPlain initState 0
    (mkRequest cfgPlain 0 0 "write_file" [] "caller")).2.1 (by decide)

/-- C8 (documents the code bug): the static handler rejects a plain
traversal to /etc/passwd and serves a file inside the directory, but the
containment check is a string prefix test on the normalized path, so a
request resolving to a sibling directory whose name extends the server
directory name passes the check and is served although it lies outside
the server directory. -/
theorem C8_static_path_escape :
    handleStaticRequest "/srv/web-interface" "/../../etc/passwd"
      = StaticOutcome.forbidden ∧
    handleStaticRequest "/srv/web-interface" "/index.html"
      = StaticOutcome.serve "/srv/web-interface/index.html" ∧
    handleStaticRequest "/srv/web-interface" "/../web-interface2/secret.txt"
      = StaticOutcome.serve "/srv/web-interface2/secret.txt" ∧
    insideDirectory "/srv/web-interface" "/srv/web-interface2/secret.txt"
      = false := by
  refine ⟨by decide, by decide, by decide, by decide⟩

lemma handleAPI_state (st : ServerState) (c : ApiCall) :
    (handleAPI st c).1 = st := by
  cases c <;> rfl

lemma applyCalls_id (st : ServerState) (calls : List ApiCall) :
    applyCalls st calls = st := by
  induction calls with
  | nil => rfl
  | cons c cs ih =>
    show applyCalls (handleAPI st c).1 cs = st
    rw [handleAPI_state]
    exact ih

/-- C9: GET personality and GET status always report humor 75, honesty
90, sarcasm 30, mission focus 100, after any sequence of API calls; a
POST to the personality endpoint echoes the submitted values in its
response but leaves the server state unchanged. -/
theorem C9_personality_stateless (st : ServerState) (calls : List ApiCall)
    (h o sa : Nat) :
    (handleAPI (applyCalls st calls) ApiCall.personalityGet).2
      = ApiResponse.personalityResp true ⟨75, 90, 30, 100⟩ ∧
    (handleAPI (applyCalls st calls) ApiCall.statusGet).2
      = ApiResponse.statusResp true "operational" "codellama:7b-instruct"
          ⟨75, 90, 30, 100⟩ ∧
    (handleAPI st (ApiCall.personalityPost h o sa)).2
      = ApiResponse.personalityUpdateResp true ⟨h, o, sa, 100⟩ ∧
    (handleAPI st (ApiCall.personalityPost h o sa)).1 = st :=
  ⟨rfl, rfl, rfl, rfl⟩

/-- C10: a POST of any string to the models endpoint answers success with
current_model equal to the submitted string, with no validation against
the model table and no state change; a subsequent GET still reports the
constant model table with codellama as current. -/
theorem C10_model_switch_no_validation (st : ServerState) (m : String)
    (calls : List ApiCall) :
    (handleAPI st (ApiCall.modelsPost m)).2
      = ApiResponse.modelSwitchResp true m ∧
    (handleAPI st (ApiCall.modelsPost m)).1 = st ∧
    (handleAPI (applyCalls st calls) ApiCall.modelsGet).2
      = ApiResponse.modelsResp true modelTable "codellama:7b-instruct" :=
  ⟨rfl, rfl, rfl⟩
